import Mathlib

/-!
Shallow embedding of the primesieve sources (PrimeSieve.cpp, iterator.cpp,
cmdoptions.cpp, pmath.hpp) and proofs about them.

Machine integers are modelled as `Nat` (for the unsigned 64-bit values) or
`Int` (for C `int` parameters); wrap-around is written explicitly where the
source can wrap.  Fallible functions return `Except String`.  Code that the
repository snapshot does not contain under src/ (the segmented sieve engine
`PrimeNumberFinder` / `PrimeNumberGenerator`, and `nextPowerOf2` from
imath.h) is modelled from the specification; each such definition carries a
doc comment starting with "Modelled from the spec:".
-/

namespace Primesieve

/-! ### pmath.hpp -/

/-- `getInBetween(min, x, max)` from pmath.hpp: clamp `x` into `[min, max]`.
The source is a template over three integer types; the uses embedded here
instantiate it at C `int`, modelled as `Int`. -/
def getInBetween (mn x mx : Int) : Int :=
  if x < mn then mn
  else if x > mx then mx
  else x

/-- One trip of the loop body of `ilog2` from pmath.hpp for loop counter `i`:
`if (x >= (one << i)) { x >>= i; log2 += i; }`.  The state is the pair
`(x, log2)`. -/
def ilog2Body (i : Nat) (st : Nat × Nat) : Nat × Nat :=
  if 2 ^ i ≤ st.1 then (st.1 / 2 ^ i, st.2 + i) else st

/-- `ilog2` from pmath.hpp instantiated at a 64-bit unsigned type:
the loop `for (i = bits / 2; i != 0; i /= 2)` visits
`i = 32, 16, 8, 4, 2, 1`. -/
def ilog2 (x : Nat) : Nat :=
  ([32, 16, 8, 4, 2, 1].foldl (fun st i => ilog2Body i st) (x, 0)).2

/-- The Newton iteration loop of `isqrt` from pmath.hpp:
`while (g1 < g0) { g0 = g1; g1 = (g0 + x / g0) >> 1; }` followed by
`return g0`.  `fuel` bounds the number of iterations; since `g0` strictly
decreases on every iteration, `fuel = g0` always suffices (proved below), so
the fuel-free loop of the source and this definition agree. -/
def newtonLoop (x : Nat) : Nat → Nat → Nat → Nat
  | 0, g0, _ => g0
  | fuel + 1, g0, g1 =>
    if g1 < g0 then newtonLoop x fuel g1 ((g1 + x / g1) / 2) else g0

/-- `isqrt` from pmath.hpp instantiated at a 64-bit unsigned type
(`bits = 64`): integer square root by Newton's method.  The first guess is
`g0 = 1 << s` with `s = bits / 2 - (bits - 1) / 2 + ilog2 (x - 1) / 2` and
`g1 = (g0 + (x >> s)) >> 1`. -/
def isqrt (x : Nat) : Nat :=
  if x ≤ 1 then x
  else
    let bits := 64
    let s := bits / 2 - (bits - 1) / 2 + ilog2 (x - 1) / 2
    let g0 := 2 ^ s
    let g1 := (g0 + x / 2 ^ s) / 2
    newtonLoop x g0 g0 g1

/-- Least power of two that is `≥ n`, computed structurally (the least power
of two `≥ n` is twice the least power of two `≥ ⌈n/2⌉`); `fuel = n` always
suffices since `(n + 1) / 2 ≤ n - 1` for `n ≥ 2`. -/
def leastPow2Go : Nat → Nat → Nat
  | 0, _ => 1
  | fuel + 1, n => if n ≤ 1 then 1 else 2 * leastPow2Go fuel ((n + 1) / 2)

/-- Least power of two that is `≥ n`. -/
def leastPow2 (n : Nat) : Nat :=
  leastPow2Go n n

/-- Modelled from the spec: `nextPowerOf2` lives in imath.h, which is not
part of the repository snapshot under src/; only its caller
`PrimeSieve::setSieveSize` is.  The spec (§6) says `set_sieve_size` shall
"round up to next power of two", so `nextPowerOf2 k` is the least power of
two that is `≥ k` (which is `1` for every `k ≤ 1`). -/
def nextPowerOf2 (k : Int) : Int :=
  if k ≤ 1 then 1 else ((leastPow2 k.toNat : Nat) : Int)

/-! ### Sanity checks on small inputs -/

example : ilog2 1 = 0 := by decide
example : ilog2 2 = 1 := by decide
example : ilog2 255 = 7 := by decide
example : ilog2 256 = 8 := by decide
example : isqrt 0 = 0 := by decide
example : isqrt 1 = 1 := by decide
example : isqrt 2 = 1 := by decide
example : isqrt 3 = 1 := by decide
example : isqrt 4 = 2 := by decide
example : isqrt 99 = 9 := by decide
example : isqrt 100 = 10 := by decide
example : nextPowerOf2 3 = 4 := by decide
example : nextPowerOf2 4 = 4 := by decide
example : nextPowerOf2 (-7) = 1 := by decide

/-! ### PrimeSieve flags

The flag bit positions live in PrimeSieve.h, which is not part of the
repository snapshot under src/.  Modelled from the spec (§6): twenty
distinct single-bit flags (`set_flags` rejects values `≥ 2^20`), in the
order `COUNT_PRIMES .. COUNT_SEPTUPLETS`, `PRINT_PRIMES .. PRINT_SEPTUPLETS`,
the four callback flags, `CALCULATE_STATUS`, `PRINT_STATUS`.  The claims
only need that the bits are distinct, which this assignment provides. -/

def COUNT_PRIMES : Nat := 2 ^ 0
def COUNT_TWINS : Nat := 2 ^ 1
def COUNT_TRIPLETS : Nat := 2 ^ 2
def COUNT_QUADRUPLETS : Nat := 2 ^ 3
def COUNT_QUINTUPLETS : Nat := 2 ^ 4
def COUNT_SEXTUPLETS : Nat := 2 ^ 5
def COUNT_SEPTUPLETS : Nat := 2 ^ 6
def PRINT_PRIMES : Nat := 2 ^ 7
def CALLBACK32_PRIMES : Nat := 2 ^ 14
def CALLBACK64_PRIMES : Nat := 2 ^ 15
def CALLBACK32_OOP_PRIMES : Nat := 2 ^ 16
def CALLBACK64_OOP_PRIMES : Nat := 2 ^ 17
def CALCULATE_STATUS : Nat := 2 ^ 18
def PRINT_STATUS : Nat := 2 ^ 19

/-- `isFlag(flag)`: test whether a flag bit is set in the bitset. -/
def isFlag (flags f : Nat) : Bool :=
  flags &&& f ≠ 0

/-- `isCount(index)`: the COUNT flag of k-tuplet index `i ∈ [0,6]` is bit
`i` (COUNT_PRIMES shifted by the index). -/
def isCount (flags : Nat) (i : Nat) : Bool :=
  isFlag flags (COUNT_PRIMES <<< i)

/-- `isPrint(index)`: the PRINT flag of k-tuplet index `i ∈ [0,6]`. -/
def isPrint (flags : Nat) (i : Nat) : Bool :=
  isFlag flags (PRINT_PRIMES <<< i)

/-- `isStatus()`: whether a status flag (CALCULATE_STATUS or PRINT_STATUS)
is set. -/
def isStatus (flags : Nat) : Bool :=
  isFlag flags (CALCULATE_STATUS ||| PRINT_STATUS)

/-! ### PrimeSieve state -/

/-- Observable side effects of a run: user-callback invocations and lines
printed to standard output. -/
inductive Event where
  | cb32 (v : Nat)
  | cb64 (v : Nat)
  | cb32oop (v : Nat)
  | cb64oop (v : Nat)
  | printed (s : String)
deriving DecidableEq, Repr

/-- The data members of a `PrimeSieve` object (a facade owned by the user,
so `parent_` is NULL and is not modelled; callback function pointers are
modelled by the `Event` trace instead of by fields).

`status_`, `interval_`, `seconds_` are C `double`s; they are modelled as
`Rat`.  Every theorem below touches them only at values where the double
computation is exact (integer values, and `0 / interval`), so the model is
faithful there. -/
structure PS where
  start_ : Nat
  stop_ : Nat
  flags_ : Nat
  preSieve_ : Int
  sieveSize_ : Int
  counts_ : Fin 7 → Nat
  sumSegments_ : Nat
  interval_ : Rat
  status_ : Rat
  seconds_ : Rat

/-- `uint64` subtraction `a - b` (wrap-around mod `2^64`), for
`a, b < 2^64`. -/
def u64sub (a b : Nat) : Nat :=
  (a + 2 ^ 64 - b) % 2 ^ 64

/-- C truncation of a `double`/`Rat` toward zero when cast to `int`. -/
def cTrunc (q : Rat) : Int :=
  q.num / (q.den : Int)

/-- `UINT64_MAX - UINT32_MAX * UINT64_C(10)`, the bound used by
`setStart` / `setStop`. -/
def startStopBound : Nat :=
  (2 ^ 64 - 1) - (2 ^ 32 - 1) * 10

/-- `PrimeSieve::updateStatus(segment)` for a facade without parent:
adds `segment` to `sumSegments_`, recomputes `status_`, and prints the new
integer percentage when PRINT_STATUS is set and the percentage grew. -/
def updateStatus (s : PS) (segment : Nat) : PS × List Event :=
  let sum := s.sumSegments_ + segment
  let old : Int := cTrunc s.status_
  let status : Rat := min (((sum : Rat) / s.interval_) * 100) 100
  let ev : List Event :=
    if isFlag s.flags_ PRINT_STATUS ∧ old < cTrunc status then
      [.printed (toString (cTrunc status) ++ "%")]
    else []
  ({ s with sumSegments_ := sum, status_ := status }, ev)

/-- `PrimeSieve::reset()`: zero the seven counters and `sumSegments_`,
recompute `interval_ = stop - start + 1` (in `uint64` arithmetic, then cast
to double), set `status_ = -1`, `seconds_ = 0`, and, when a status flag is
set, call `updateStatus(0)`. -/
def reset (s : PS) : PS × List Event :=
  let s1 : PS :=
    { s with
      sumSegments_ := 0
      counts_ := fun _ => 0
      interval_ := ((u64sub s.stop_ s.start_ + 1 : Nat) : Rat)
      status_ := -1
      seconds_ := 0 }
  if isStatus s1.flags_ then updateStatus s1 0 else (s1, [])

/-- `PrimeSieve::setStart(start)`: reject values
`≥ UINT64_MAX - UINT32_MAX * 10`. -/
def setStart (s : PS) (start : Nat) : Except String PS :=
  if startStopBound ≤ start then
    .error "START must be < (2^64-1) - (2^32-1) * 10"
  else .ok { s with start_ := start }

/-- `PrimeSieve::setStop(stop)`: reject values
`≥ UINT64_MAX - UINT32_MAX * 10`. -/
def setStop (s : PS) (stop : Nat) : Except String PS :=
  if startStopBound ≤ stop then
    .error "STOP must be < (2^64-1) - (2^32-1) * 10"
  else .ok { s with stop_ := stop }

/-- `PrimeSieve::setPreSieve(preSieve)`: clamp into `[13, 23]`. -/
def setPreSieve (s : PS) (preSieve : Int) : PS :=
  { s with preSieve_ := getInBetween 13 preSieve 23 }

/-- `PrimeSieve::setSieveSize(sieveSize)`: round up to the next power of
two, then clamp into `[1, 4096]`. -/
def setSieveSize (s : PS) (sieveSize : Int) : PS :=
  { s with sieveSize_ := getInBetween 1 (nextPowerOf2 sieveSize) 4096 }

/-- `PrimeSieve::setFlags(flags)`: reject values `≥ 1 << 20`. -/
def setFlags (s : PS) (flags : Nat) : Except String PS :=
  if 2 ^ 20 ≤ flags then .error "invalid flags"
  else .ok { s with flags_ := flags }

/-- An entry of `PrimeSieve::smallPrimes_`: smallest member, largest member,
k-tuplet index and print string. -/
structure SmallPrime where
  min : Nat
  max : Nat
  index : Nat
  str : String

/-- The hardcoded `smallPrimes_[8]` table from PrimeSieve.cpp. -/
def smallPrimes_ : List SmallPrime :=
  [⟨2, 2, 0, "2"⟩,
   ⟨3, 3, 0, "3"⟩,
   ⟨5, 5, 0, "5"⟩,
   ⟨3, 5, 1, "(3, 5)"⟩,
   ⟨5, 7, 1, "(5, 7)"⟩,
   ⟨5, 11, 2, "(5, 7, 11)"⟩,
   ⟨5, 13, 3, "(5, 7, 11, 13)"⟩,
   ⟨5, 17, 4, "(5, 7, 11, 13, 17)"⟩]

/-- `PrimeSieve::doSmallPrime(sp)`: when `start_ ≤ sp.min && sp.max ≤
stop_`, invoke the registered callbacks (for `index == 0`), bump the
counter of `sp.index` when its COUNT flag is set, and print `sp.str` when
its PRINT flag is set. -/
def doSmallPrime (s : PS) (sp : SmallPrime) : PS × List Event :=
  if s.start_ ≤ sp.min ∧ sp.max ≤ s.stop_ then
    let cbev : List Event :=
      if sp.index = 0 then
        (if isFlag s.flags_ CALLBACK32_PRIMES then [.cb32 sp.min] else []) ++
        (if isFlag s.flags_ CALLBACK64_PRIMES then [.cb64 sp.min] else []) ++
        (if isFlag s.flags_ CALLBACK32_OOP_PRIMES then [.cb32oop sp.min] else []) ++
        (if isFlag s.flags_ CALLBACK64_OOP_PRIMES then [.cb64oop sp.min] else [])
      else []
    let s' : PS :=
      { s with
        counts_ := fun i =>
          if isCount s.flags_ sp.index ∧ i.val = sp.index then s.counts_ i + 1
          else s.counts_ i }
    let prev : List Event :=
      if isPrint s.flags_ sp.index then [.printed sp.str] else []
    (s', cbev ++ prev)
  else (s, [])

/-! ### The segmented sieve engine, modelled from the spec

`PrimeNumberFinder` / `PrimeNumberGenerator` / the Erat* engines are not
part of the repository snapshot under src/ (only their caller
`PrimeSieve::sieve` is), so their observable effect is modelled from the
spec. -/

/-- The offset pattern of the k-tuplet with index `i` (primes, twins,
triplets, ..., septuplets).  Modelled from the spec: §4.7 and the glossary
fix a single pattern per k (twin = `(p, p+2)`; the patterns of the larger
tuplets follow the hardcoded small-prime table `(5, 7, 11, 13, 17)` and the
spec's scenario "the single sextuplet starts at 7", i.e.
`(7, 11, 13, 17, 19, 23)`). -/
def tupletOffsets : Nat → List Nat
  | 0 => [0]
  | 1 => [0, 2]
  | 2 => [0, 2, 6]
  | 3 => [0, 2, 6, 8]
  | 4 => [0, 2, 6, 8, 12]
  | 5 => [0, 4, 6, 10, 12, 16]
  | _ => [0, 2, 6, 8, 12, 18, 20]

/-- Modelled from the spec: the number of k-tuplets of index `i` that the
engine counts in `[start, stop]`.  Per §4.7/§4.1 the engine's bitmap only
ever contains candidates `≥ 7` (2, 3, 5 are excluded by the wheel and
handled by the small-prime table), and a counted tuplet lies entirely
inside the interval. -/
def engineTupletCount (i start stop : Nat) : Nat :=
  ((Finset.Icc start stop).filter fun p =>
    7 ≤ p ∧ (tupletOffsets i).getLast! + p ≤ stop ∧
      ∀ o ∈ tupletOffsets i, Nat.Prime (p + o)).card

/-- Modelled from the spec: the primes `≥ 7` of `[start, stop]` in
increasing order, as delivered bit by bit to callbacks / printing
(§4.7). -/
def enginePrimes (start stop : Nat) : List Nat :=
  (List.range (stop + 1)).filter fun p =>
    decide (7 ≤ p) && decide (start ≤ p) && decide (Nat.Prime p)

/-- Modelled from the spec: the effect of running the segmented engine
(`finder.finish()` and the generator behind it) on the facade: each enabled
COUNT counter is increased by the number of tuplets in the interval, each
enabled callback fires for every prime `≥ 7` of the interval (the 32-bit
variants truncate), and `PRINT_PRIMES` prints each such prime.  Printing of
k-tuplets for `k ≥ 2` is not modelled (no claim mentions it). -/
def engineRun (s : PS) : PS × List Event :=
  let s' : PS :=
    { s with
      counts_ := fun i =>
        s.counts_ i +
          if isCount s.flags_ i.val then engineTupletCount i.val s.start_ s.stop_
          else 0 }
  let ev : List Event :=
    (enginePrimes s.start_ s.stop_).flatMap fun p =>
      (if isFlag s.flags_ CALLBACK32_PRIMES then [Event.cb32 (p % 2 ^ 32)] else []) ++
      (if isFlag s.flags_ CALLBACK64_PRIMES then [Event.cb64 p] else []) ++
      (if isFlag s.flags_ CALLBACK32_OOP_PRIMES then [Event.cb32oop (p % 2 ^ 32)] else []) ++
      (if isFlag s.flags_ CALLBACK64_OOP_PRIMES then [Event.cb64oop p] else []) ++
      (if isFlag s.flags_ PRINT_PRIMES then [Event.printed (toString p)] else [])
  (s', ev)

/-- One trip of the small-prime loop of `sieve()`:
`doSmallPrime(smallPrimes_[i])`, accumulating the events. -/
def smallStep (acc : PS × List Event) (sp : SmallPrime) : PS × List Event :=
  let r := doSmallPrime acc.1 sp
  (r.1, acc.2 ++ r.2)

/-- The body of `PrimeSieve::sieve()` after the interval guard: `reset()`,
the hardcoded small-prime loop when `start_ ≤ 5`, the segmented engine when
`stop_ ≥ 7` (modelled from the spec), and the final `updateStatus(10)` when
a status flag is set.  The elapsed-seconds measurement is modelled as 0. -/
def sieveCore (s : PS) : PS × List Event :=
  let r1 := reset s
  let r2 := if r1.1.start_ ≤ 5 then smallPrimes_.foldl smallStep r1 else r1
  let r3 :=
    if 7 ≤ r2.1.stop_ then
      let e := engineRun r2.1
      (e.1, r2.2 ++ e.2)
    else r2
  if isStatus r3.1.flags_ then
    let u := updateStatus r3.1 10
    (u.1, r3.2 ++ u.2)
  else r3

/-- `PrimeSieve::sieve()`: fail when `stop_ < start_`; otherwise run the
body `sieveCore`. -/
def sieveRun (s : PS) : Except String (PS × List Event) :=
  if s.stop_ < s.start_ then .error "STOP must be >= START"
  else .ok (sieveCore s)

/-- `PrimeSieve::sieve(start, stop)`: `setStart`, `setStop`, `sieve()`,
propagating the first failure. -/
def sieveStartStop (s : PS) (start stop : Nat) :
    Except String (PS × List Event) :=
  match setStart s start with
  | .error e => .error e
  | .ok s1 =>
    match setStop s1 stop with
    | .error e => .error e
    | .ok s2 => sieveRun s2

/-- `PrimeSieve::sieve(start, stop, flags)`: `setStart`, `setStop`,
`setFlags`, `sieve()`, propagating the first failure. -/
def sieveStartStopFlags (s : PS) (start stop flags : Nat) :
    Except String (PS × List Event) :=
  match setStart s start with
  | .error e => .error e
  | .ok s1 =>
    match setStop s1 stop with
    | .error e => .error e
    | .ok s2 =>
      match setFlags s2 flags with
      | .error e => .error e
      | .ok s3 => sieveRun s3

/-! ### generatePrimes -/

/-- The four `PrimeSieve::generatePrimes` overloads: 32- or 64-bit values,
with or without an opaque context pointer. -/
inductive CbVariant where
  | cb32v
  | cb64v
  | cb32oopv
  | cb64oopv
deriving DecidableEq, Repr

/-- The single CALLBACK flag stored by each `generatePrimes` overload. -/
def callbackFlag : CbVariant → Nat
  | .cb32v => CALLBACK32_PRIMES
  | .cb64v => CALLBACK64_PRIMES
  | .cb32oopv => CALLBACK32_OOP_PRIMES
  | .cb64oopv => CALLBACK64_OOP_PRIMES

/-- Whether the overload's NULL check fires: every overload rejects a NULL
callback, and the two `_OOP_` overloads additionally reject a NULL `obj`. -/
def nullCheckFails (v : CbVariant) (callbackNull objNull : Bool) : Bool :=
  match v with
  | .cb32v | .cb64v => callbackNull
  | .cb32oopv | .cb64oopv => callbackNull || objNull

/-- `PrimeSieve::generatePrimes(start, stop, callback[, obj])` (all four
overloads, selected by `v`; the function pointers themselves are modelled
only by their NULL-ness): check the pointers, store the callback, overwrite
`flags_` with the single CALLBACK flag, `setPreSieve(17)`, then
`sieve(start, stop)`. -/
def generatePrimes (v : CbVariant) (callbackNull objNull : Bool)
    (start stop : Nat) (s : PS) : Except String (PS × List Event) :=
  if nullCheckFails v callbackNull objNull then
    .error "callback must not be NULL"
  else
    let s1 := { s with flags_ := callbackFlag v }
    let s2 := setPreSieve s1 17
    sieveStartStop s2 start stop

/-! ### iterator.cpp -/

def KILOBYTE : Nat := 2 ^ 10
def MEGABYTE : Nat := 2 ^ 20

/-- The part of the `primesieve::iterator` state that
`get_interval_size` reads and writes: the call counter `count_`
(`skipto` resets it to 0). -/
structure It where
  count_ : Nat
deriving DecidableEq, Repr

/-- The integer core of `iterator::get_interval_size(n)` from iterator.cpp:
increment `count_`, pick the base batch size
(`32 KiB / sizeof(uint64_t)` while `count_ < 10`, else
`4 MiB / sizeof(uint64_t)`), and clamp it from below by `sqrtx_primes` and
from above by `512 MiB / sizeof(uint64_t)`.  The value
`sqrtx_primes = (uint64_t)(sqrt(x) / (log(sqrt(x)) - 1))` is a
floating-point computation and is passed in as the parameter `sqrtxPrimes`;
the final floating-point product `primes * log(x)` is outside this integer
core.  Returns (new state, base, clamped primes-per-batch). -/
def getIntervalSizeCore (s : It) (sqrtxPrimes : Nat) : It × Nat × Nat :=
  let count := s.count_ + 1
  let base := (if count < 10 then KILOBYTE * 32 else MEGABYTE * 4) / 8
  let maxPrimes := MEGABYTE * 512 / 8
  let primes := min (max base sqrtxPrimes) maxPrimes
  (⟨count⟩, base, primes)

/-- `iterator::skipto` sets `count_ = 0`: the iterator state right after
construction or `skipto`. -/
def itFresh : It := ⟨0⟩

/-- The iterator state after `k` calls of `get_interval_size` (all with the
same `sqrtx_primes` value `sp`) starting from a fresh iterator. -/
def itAfter (sp : Nat) : Nat → It
  | 0 => itFresh
  | k + 1 => (getIntervalSizeCore (itAfter sp k) sp).1

/-- The base batch size used by the `k`-th call (`k ≥ 1`) of
`get_interval_size` on an iterator, counting from `skipto`. -/
def callBase (sp k : Nat) : Nat :=
  (getIntervalSizeCore (itAfter sp (k - 1)) sp).2.1

/-- The clamped primes-per-batch of the `k`-th call (`k ≥ 1`). -/
def callPrimes (sp k : Nat) : Nat :=
  (getIntervalSizeCore (itAfter sp (k - 1)) sp).2.2

/-! ### cmdoptions.cpp -/

/-- The COUNT flag selected by decimal digit `d` in `optionCount`
(`case 1: COUNT_PRIMES; ... case 6: COUNT_SEXTUPLETS`); `none` for the
digits `0, 7, 8, 9` that hit the throwing `default` branch. -/
def countFlagOfDigit (d : Nat) : Option Nat :=
  match d with
  | 1 => some COUNT_PRIMES
  | 2 => some COUNT_TWINS
  | 3 => some COUNT_TRIPLETS
  | 4 => some COUNT_QUADRUPLETS
  | 5 => some COUNT_QUINTUPLETS
  | 6 => some COUNT_SEXTUPLETS
  | _ => none

/-- The loop of `optionCount` from cmdoptions.cpp:
`for (; n > 0; n /= 10)` ORs the flag of digit `n % 10` into the flag
bitset, throwing on a digit outside `{1..6}`.  `fuel` bounds the number of
iterations; since `n` strictly decreases, `fuel = n` always suffices
(established by `optionCountGo_fuel` below). -/
def optionCountGo : Nat → Nat → Nat → Except String Nat
  | _, 0, flags => .ok flags
  | 0, _ + 1, flags => .ok flags
  | fuel + 1, n + 1, flags =>
    match countFlagOfDigit ((n + 1) % 10) with
    | some f => optionCountGo fuel ((n + 1) / 10) (flags ||| f)
    | none => .error "invalid option"

/-- The effect of `optionCount(opt, opts)` on `opts.flags`, given the value
`n = opt.getValue<int>()` parsed as a non-negative integer. -/
def optionCount (n flags : Nat) : Except String Nat :=
  optionCountGo n n flags

/-- The flag bitset contributed by a digit list (least significant digit
first, matching `Nat.digits 10`), with `0` for a digit outside
`{1..6}`. -/
def digitFlags : List Nat → Nat
  | [] => 0
  | d :: ds => (countFlagOfDigit d).getD 0 ||| digitFlags ds

example : optionCount 0 0 = .ok 0 := rfl
example : optionCount 1 0 = .ok COUNT_PRIMES := rfl
example : optionCount 26 0 = .ok (COUNT_TWINS ||| COUNT_SEXTUPLETS) := rfl
example : optionCount 10 0 = .error "invalid option" := rfl
example : optionCount 7 0 = .error "invalid option" := rfl

/-! ### Shared sample state -/

/-- A sample facade state: interval `[0, 0]`, only COUNT_PRIMES set
(the defaults of the `PrimeSieve` constructor). -/
def psDefault : PS :=
  { start_ := 0
    stop_ := 0
    flags_ := COUNT_PRIMES
    preSieve_ := 19
    sieveSize_ := 32
    counts_ := fun _ => 0
    sumSegments_ := 0
    interval_ := 1
    status_ := -1
    seconds_ := 0 }

/-! ### Claim C2: the setStart / setStop overflow guard -/

/-- C2, counterexample.  The claim says the call with
`v = 2^64 − 10·(2^32 − 1) − 1` succeeds and stores `v`; but the guard in
the source is `v >= UINT64_MAX - UINT32_MAX * 10`, and
`UINT64_MAX - UINT32_MAX * 10 = 2^64 − 10·(2^32 − 1) − 1` exactly, so both
`set_stop` and `set_start` throw at precisely that value. -/
theorem setStop_boundary_value_fails :
    setStop psDefault (2 ^ 64 - 10 * (2 ^ 32 - 1) - 1) =
      .error "STOP must be < (2^64-1) - (2^32-1) * 10" ∧
    setStart psDefault (2 ^ 64 - 10 * (2 ^ 32 - 1) - 1) =
      .error "START must be < (2^64-1) - (2^32-1) * 10" := by
  constructor <;> simp [setStop, setStart, startStopBound]

/-- C2, amended: `set_stop(v)` (and likewise `set_start(v)`) fails by
throwing if and only if `v ≥ 2^64 − 10·(2^32 − 1) − 1` (the guard compares
with `UINT64_MAX − UINT32_MAX·10`, one below the claim's threshold); in
particular `v = 2^64 − 10·(2^32 − 1) − 2` succeeds and stores `v`, and
`v = 2^64 − 10·(2^32 − 1) − 1` fails, leaving the stored value unchanged
(the error carries no updated state). -/
theorem setStartStop_guard (s : PS) (v : Nat) :
    (v < 2 ^ 64 - 10 * (2 ^ 32 - 1) - 1 →
      setStart s v = .ok { s with start_ := v } ∧
      setStop s v = .ok { s with stop_ := v }) ∧
    (2 ^ 64 - 10 * (2 ^ 32 - 1) - 1 ≤ v →
      setStart s v = .error "START must be < (2^64-1) - (2^32-1) * 10" ∧
      setStop s v = .error "STOP must be < (2^64-1) - (2^32-1) * 10") := by
  have hb : (2 : Nat) ^ 64 - 10 * (2 ^ 32 - 1) - 1 = startStopBound := by
    norm_num [startStopBound]
  constructor
  · intro hv
    rw [hb] at hv
    constructor <;> simp [setStart, setStop, Nat.not_le.mpr hv]
  · intro hv
    rw [hb] at hv
    constructor <;> simp [setStart, setStop, hv]

/-- C2, witness for the amended theorem at `v = 2^64 − 10·(2^32−1) − 2`. -/
theorem setStartStop_guard_witness :
    setStart psDefault (2 ^ 64 - 10 * (2 ^ 32 - 1) - 2) =
      .ok { psDefault with start_ := 2 ^ 64 - 10 * (2 ^ 32 - 1) - 2 } ∧
    setStop psDefault (2 ^ 64 - 10 * (2 ^ 32 - 1) - 2) =
      .ok { psDefault with stop_ := 2 ^ 64 - 10 * (2 ^ 32 - 1) - 2 } :=
  (setStartStop_guard psDefault _).1 (by norm_num)

/-! ### Claim C3: sieve() fails exactly on interval inversion -/

/-- Helper: `sieve()` returns normally whenever `start_ ≤ stop_`. -/
theorem sieveRun_total (s : PS) (h : s.start_ ≤ s.stop_) :
    ∃ r, sieveRun s = .ok r := by
  rw [sieveRun, if_neg (Nat.not_lt.mpr h)]
  exact ⟨_, rfl⟩

/-- C3: for every configured pair, `sieve()` throws exactly when
`stop < start`; the throw happens before `reset()`, the small-prime table,
the engine and the status update, so on failure the run produces no state
change and no events (the error case of the embedding carries neither);
when `stop ≥ start` the run completes normally. -/
theorem sieve_fails_iff_inverted (s : PS) :
    (s.stop_ < s.start_ → sieveRun s = .error "STOP must be >= START") ∧
    (s.start_ ≤ s.stop_ → ∃ r, sieveRun s = .ok r) := by
  refine ⟨fun h => ?_, fun h => sieveRun_total s h⟩
  rw [sieveRun, if_pos h]

/-- C3, witness: an inverted interval (`[5, 3]`) fails; `[0, 0]`
succeeds. -/
theorem sieve_fails_iff_inverted_witness :
    sieveRun { psDefault with start_ := 5, stop_ := 3 } =
      .error "STOP must be >= START" ∧
    ∃ r, sieveRun psDefault = .ok r :=
  ⟨(sieve_fails_iff_inverted _).1 (by decide),
   (sieve_fails_iff_inverted psDefault).2 (by decide)⟩

/-! ### Claim C5: state after reset() -/

/-- C5, counterexample.  The claim says `get_status()` returns `−1` after
`reset()` for every configuration, any flags included; but when
CALCULATE_STATUS is set, `reset()` calls `updateStatus(0)`, which
overwrites `status_` with `min((0 / interval) · 100, 100) = 0 ≠ −1`. -/
theorem reset_status_zero_with_status_flag :
    (reset { psDefault with flags_ := CALCULATE_STATUS }).1.status_ = 0 ∧
    (0 : Rat) ≠ -1 := by
  constructor
  · simp [reset, updateStatus, isStatus, isFlag, CALCULATE_STATUS, PRINT_STATUS,
      psDefault, u64sub]
  · norm_num

/-- C5, amended: immediately after `reset()` all seven counters are zero
(for every configuration); and `get_status()` returns `−1` provided
neither CALCULATE_STATUS nor PRINT_STATUS is set — when a status flag is
set, `reset()` ends by calling `updateStatus(0)`, which replaces the `−1`
with the computed percentage (0 on a non-degenerate interval). -/
theorem reset_counts_status (s : PS) :
    (∀ i, (reset s).1.counts_ i = 0) ∧
    (isStatus s.flags_ = false → (reset s).1.status_ = -1) := by
  constructor
  · intro i
    rw [reset]
    split
    · rfl
    · rfl
  · intro h
    rw [reset]
    split
    · simp_all
    · rfl

/-- C5, witness for the amended theorem: the default configuration has no
status flag. -/
theorem reset_counts_status_witness :
    (∀ i, (reset psDefault).1.counts_ i = 0) ∧
    (reset psDefault).1.status_ = -1 :=
  ⟨(reset_counts_status psDefault).1,
   (reset_counts_status psDefault).2 (by decide)⟩

/-! ### Claim C7: iterator batch sizing -/

/-- The call counter after `k` calls is `k`. -/
theorem itAfter_count (sp k : Nat) : itAfter sp k = ⟨k⟩ := by
  induction k with
  | zero => rfl
  | succ k ih => rw [itAfter, ih]; rfl

/-- C7, counterexample.  The claim says the batch base is
`32 KiB / 8 = 4096` on each of the first ten regeneration calls; but
`count_++` runs before the `count_ < 10` test, so the tenth call already
sees `count_ = 10` and uses the large base `4 MiB / 8 = 524288 ≠ 4096`. -/
theorem tenth_call_uses_large_base :
    callBase 0 10 = 524288 ∧ (524288 : Nat) ≠ 4096 := by
  constructor
  · rw [callBase, itAfter_count]; rfl
  · norm_num

/-- Evaluated form of the base of the `k`-th call. -/
theorem callBase_eval (sp k : Nat) (hk : 1 ≤ k) :
    callBase sp k = if k < 10 then 4096 else 524288 := by
  rw [callBase, itAfter_count]
  by_cases h : k < 10
  · have h' : k - 1 + 1 < 10 := by omega
    rw [if_pos h]
    simp only [getIntervalSizeCore, if_pos h']
    norm_num [KILOBYTE]
  · have h' : ¬ k - 1 + 1 < 10 := by omega
    rw [if_neg h]
    simp only [getIntervalSizeCore, if_neg h']
    norm_num [MEGABYTE]

/-- Evaluated form of the clamp of the `k`-th call. -/
theorem callPrimes_eval (sp k : Nat) :
    callPrimes sp k = min (max (callBase sp k) sp) 67108864 := by
  rw [callPrimes, callBase]
  simp only [getIntervalSizeCore]
  norm_num [MEGABYTE, KILOBYTE]

/-- C7, amended: the batch base of `get_interval_size` is
`32 KiB / 8 = 4096` on each of the first nine regeneration calls after
`skipto` and `4 MiB / 8 = 524288` on every call thereafter (the counter is
incremented before the `< 10` test); the primes-per-batch is that base
clamped below by `sqrt_primes` and above by `512 MiB / 8 = 67108864`. -/
theorem interval_size_base_and_clamp (sp k : Nat) (hk : 1 ≤ k) :
    callBase sp k = (if k ≤ 9 then 4096 else 524288) ∧
    callPrimes sp k = min (max (callBase sp k) sp) 67108864 := by
  refine ⟨?_, callPrimes_eval sp k⟩
  rw [callBase_eval sp k hk]
  have h : k < 10 ↔ k ≤ 9 := by omega
  simp [h]

/-- C7, witness for the amended theorem at the first call with
`sqrt_primes = 5000`. -/
theorem interval_size_base_and_clamp_witness :
    callBase 5000 1 = 4096 ∧
    callPrimes 5000 1 = min (max (callBase 5000 1) 5000) 67108864 :=
  interval_size_base_and_clamp 5000 1 (by norm_num)

/-! ### Claim C4: setSieveSize -/

/-- The fueled computation of `leastPow2` agrees with `2 ^ Nat.clog 2`. -/
theorem leastPow2Go_eq (fuel : Nat) :
    ∀ n, n ≤ fuel + 1 → leastPow2Go fuel n = 2 ^ Nat.clog 2 n := by
  induction fuel with
  | zero =>
    intro n hn
    rw [Nat.clog_of_right_le_one hn]
    rfl
  | succ fuel ih =>
    intro n hn
    by_cases h1 : n ≤ 1
    · rw [leastPow2Go, if_pos h1, Nat.clog_of_right_le_one h1, pow_zero]
    · have h2 : 2 ≤ n := by omega
      rw [leastPow2Go, if_neg h1, ih ((n + 1) / 2) (by omega),
        Nat.clog_of_two_le (by norm_num) h2]
      have : (n + 2 - 1) / 2 = (n + 1) / 2 := by omega
      rw [this, pow_succ]
      ring

theorem leastPow2_eq (n : Nat) : leastPow2 n = 2 ^ Nat.clog 2 n :=
  leastPow2Go_eq n n (by omega)

/-- C4: for every `int` argument `k`, the stored sieve size after
`set_sieve_size(k)` is a power of two in `[1, 4096]` (`2^m` with
`m ≤ 12`); and when `1 ≤ k ≤ 4096` the stored value is the least power of
two `≥ k`: it is a power of two (first conjunct), it is `≥ k`, and it is
`≤` every power of two `≥ k`. -/
theorem setSieveSize_power_of_two (s : PS) (k : Int) :
    (∃ m : Nat, m ≤ 12 ∧ (setSieveSize s k).sieveSize_ = 2 ^ m) ∧
    (1 ≤ k → k ≤ 4096 →
      k ≤ (setSieveSize s k).sieveSize_ ∧
      ∀ m : Nat, k ≤ 2 ^ m → (setSieveSize s k).sieveSize_ ≤ 2 ^ m) := by
  have hval : (setSieveSize s k).sieveSize_ = getInBetween 1 (nextPowerOf2 k) 4096 := rfl
  by_cases hk1 : k ≤ 1
  · have h1 : nextPowerOf2 k = 1 := by rw [nextPowerOf2, if_pos hk1]
    have hv : (setSieveSize s k).sieveSize_ = 1 := by
      rw [hval, h1, getInBetween]
      norm_num
    refine ⟨⟨0, by norm_num, by rw [hv]; norm_num⟩, fun hka hkb => ?_⟩
    have : k = 1 := le_antisymm hk1 hka
    subst this
    refine ⟨by rw [hv], fun m _ => ?_⟩
    rw [hv]
    exact_mod_cast Nat.one_le_two_pow
  · -- k ≥ 2
    have hnn : (0 : Int) ≤ k := by omega
    have hkt : 2 ≤ k.toNat := by omega
    have hktk : (k.toNat : Int) = k := Int.toNat_of_nonneg hnn
    have hnp : nextPowerOf2 k = ((2 ^ Nat.clog 2 k.toNat : Nat) : Int) := by
      rw [nextPowerOf2, if_neg hk1, leastPow2_eq]
    set c := Nat.clog 2 k.toNat with hc
    have hpos : ¬ ((2 ^ c : Nat) : Int) < 1 := by
      have : (1 : Nat) ≤ 2 ^ c := Nat.one_le_two_pow
      exact not_lt.mpr (by exact_mod_cast this)
    have hle : k.toNat ≤ 2 ^ c := Nat.le_pow_clog (by norm_num) _
    constructor
    · by_cases hbig : ((2 ^ c : Nat) : Int) > 4096
      · refine ⟨12, le_refl _, ?_⟩
        rw [hval, hnp, getInBetween, if_neg hpos, if_pos hbig]
        norm_num
      · refine ⟨c, ?_, ?_⟩
        · have h1 : (2 ^ c : Nat) ≤ 4096 := by exact_mod_cast not_lt.mp (by exact_mod_cast hbig)
          have h2 : (2 : Nat) ^ c ≤ 2 ^ 12 := by norm_num at h1 ⊢; exact h1
          exact (Nat.pow_le_pow_iff_right (by norm_num : 1 < 2)).mp h2
        · rw [hval, hnp, getInBetween, if_neg hpos, if_neg hbig]
          push_cast
          ring
    · intro hka hkb
      have hck : c ≤ 12 := by
        calc c ≤ Nat.clog 2 4096 := Nat.clog_mono_right 2 (by omega)
          _ = 12 := by
            have h12 : (4096 : Nat) = 2 ^ 12 := by norm_num
            rw [h12, Nat.clog_pow 2 12 (by norm_num)]
      have hsm : (2 : Nat) ^ c ≤ 4096 := by
        calc (2 : Nat) ^ c ≤ 2 ^ 12 := Nat.pow_le_pow_right (by norm_num) hck
          _ = 4096 := by norm_num
      have hsmall : ¬ ((4096 : Int) < ((2 ^ c : Nat) : Int)) :=
        not_lt.mpr (by exact_mod_cast hsm)
      have hv : (setSieveSize s k).sieveSize_ = ((2 ^ c : Nat) : Int) := by
        rw [hval, hnp, getInBetween, if_neg hpos, if_neg hsmall]
      refine ⟨?_, fun m hm => ?_⟩
      · rw [hv, ← hktk]
        exact_mod_cast hle
      · rw [hv]
        have hmn : k.toNat ≤ 2 ^ m := by
          have : (k.toNat : Int) ≤ ((2 ^ m : Nat) : Int) := by
            rw [hktk]; exact_mod_cast hm
          exact_mod_cast this
        have hcm : c ≤ m := by
          calc c ≤ Nat.clog 2 (2 ^ m) := Nat.clog_mono_right 2 hmn
            _ = m := Nat.clog_pow 2 m (by norm_num)
        have : (2 : Nat) ^ c ≤ 2 ^ m := Nat.pow_le_pow_right (by norm_num) hcm
        exact_mod_cast this

/-- C4, witness at `k = 1000`: the stored size is `1024 = 2^10`, is `≥
1000`, and is minimal among powers of two `≥ 1000`. -/
theorem setSieveSize_power_of_two_witness :
    (∃ m : Nat, m ≤ 12 ∧ (setSieveSize psDefault 1000).sieveSize_ = 2 ^ m) ∧
    ((1000 : Int) ≤ (setSieveSize psDefault 1000).sieveSize_ ∧
      ∀ m : Nat, (1000 : Int) ≤ 2 ^ m →
        (setSieveSize psDefault 1000).sieveSize_ ≤ 2 ^ m) :=
  ⟨(setSieveSize_power_of_two psDefault 1000).1,
   (setSieveSize_power_of_two psDefault 1000).2 (by norm_num) (by norm_num)⟩

/-! ### Claim C8: the digit handling of the -c and --count option -/

/-- Every decimal digit is either in `{1..6}` with a COUNT flag assigned,
or outside `{1..6}` and mapped to the throwing `default` branch. -/
theorem countFlagOfDigit_cases (d : Nat) (hd : d < 10) :
    (1 ≤ d ∧ d ≤ 6 ∧ ∃ f, countFlagOfDigit d = some f) ∨
    (¬(1 ≤ d ∧ d ≤ 6) ∧ countFlagOfDigit d = none) := by
  interval_cases d <;> simp [countFlagOfDigit]

/-- The fueled loop realises the digit-list specification whenever
`fuel ≥ n`. -/
theorem optionCountGo_spec (fuel : Nat) :
    ∀ n flags, n ≤ fuel →
      ((∀ d ∈ Nat.digits 10 n, 1 ≤ d ∧ d ≤ 6) →
        optionCountGo fuel n flags = .ok (flags ||| digitFlags (Nat.digits 10 n))) ∧
      ((∃ d ∈ Nat.digits 10 n, ¬(1 ≤ d ∧ d ≤ 6)) →
        optionCountGo fuel n flags = .error "invalid option") := by
  induction fuel with
  | zero =>
    intro n flags hn
    have : n = 0 := by omega
    subst this
    simp [optionCountGo, digitFlags]
  | succ fuel ih =>
    intro n flags hn
    match n with
    | 0 => simp [optionCountGo, digitFlags]
    | m + 1 =>
      have hdig : Nat.digits 10 (m + 1) =
          (m + 1) % 10 :: Nat.digits 10 ((m + 1) / 10) :=
        Nat.digits_def' (by norm_num) (Nat.succ_pos m)
      have hfu : (m + 1) / 10 ≤ fuel := by omega
      rcases countFlagOfDigit_cases ((m + 1) % 10) (Nat.mod_lt _ (by norm_num)) with
        ⟨h1, h6, f, hf⟩ | ⟨hbad, hf⟩
      · have hgo : optionCountGo (fuel + 1) (m + 1) flags =
            optionCountGo fuel ((m + 1) / 10) (flags ||| f) := by
          rw [optionCountGo, hf]
        constructor
        · intro hall
          rw [hdig] at hall ⊢
          simp only [List.mem_cons, forall_eq_or_imp] at hall
          rw [hgo, (ih ((m + 1) / 10) (flags ||| f) hfu).1 hall.2]
          rw [digitFlags, hf]
          simp [Nat.lor_assoc]
        · intro hex
          rw [hdig] at hex
          simp only [List.mem_cons] at hex
          obtain ⟨d, hd, hdbad⟩ := hex
          rcases hd with rfl | hd
          · exact absurd ⟨h1, h6⟩ hdbad
          · rw [hgo]
            exact (ih ((m + 1) / 10) (flags ||| f) hfu).2 ⟨d, hd, hdbad⟩
      · have hgo : optionCountGo (fuel + 1) (m + 1) flags = .error "invalid option" := by
          rw [optionCountGo, hf]
        constructor
        · intro hall
          rw [hdig] at hall
          simp only [List.mem_cons, forall_eq_or_imp] at hall
          exact absurd hall.1 hbad
        · intro _
          exact hgo

/-- C8, counterexample.  The claim says processing fails whenever any
decimal digit of `n` lies outside `{1..6}`; the numeral of `n = 0` is the
single digit `0`, which is outside `{1..6}` and is mapped to the throwing
`default` branch, yet `optionCount` accepts 0 (the loop `for (; n > 0;
n /= 10)` runs zero times) and sets no flags. -/
theorem optionCount_zero_accepted :
    optionCount 0 0 = .ok 0 ∧
    Nat.toDigits 10 0 = ['0'] ∧
    countFlagOfDigit 0 = none := by
  refine ⟨rfl, rfl, rfl⟩

/-- C8, amended: for every `-c` value parsed as a non-negative integer
`n > 0`, processing `n` ORs in exactly the COUNT flag of each decimal
digit of `n` (digit 1 ⇒ COUNT_PRIMES, ..., digit 6 ⇒ COUNT_SEXTUPLETS) and
fails whenever some digit of `n` lies outside `{1..6}`; `n = 0`, whose
digit list is empty as processed by the loop, is accepted and sets no
flags. -/
theorem optionCount_digit_flags (n flags : Nat) :
    ((∀ d ∈ Nat.digits 10 n, 1 ≤ d ∧ d ≤ 6) →
      optionCount n flags = .ok (flags ||| digitFlags (Nat.digits 10 n))) ∧
    ((∃ d ∈ Nat.digits 10 n, ¬(1 ≤ d ∧ d ≤ 6)) →
      optionCount n flags = .error "invalid option") :=
  optionCountGo_spec n n flags (le_refl n)

/-- C8, witness: `-c16` enables COUNT_SEXTUPLETS and COUNT_PRIMES;
`-c19` fails on the digit 9. -/
theorem optionCount_digit_flags_witness :
    optionCount 16 0 = .ok (0 ||| digitFlags (Nat.digits 10 16)) ∧
    optionCount 19 0 = .error "invalid option" :=
  ⟨(optionCount_digit_flags 16 0).1 (by simp),
   (optionCount_digit_flags 19 0).2 (by simp)⟩

/-! ### The counters computed by one sieve() run -/

/-- The contribution of the small-prime loop over a table `l` to counter
`i`. -/
def smallContribList (l : List SmallPrime) (start stop flags : Nat) (i : Fin 7) : Nat :=
  (l.map fun sp =>
    if start ≤ sp.min ∧ sp.max ≤ stop ∧ isCount flags sp.index ∧ i.val = sp.index
    then 1 else 0).sum

/-- The value of counter `i` after one complete `sieve()` run on the
configuration `(start, stop, flags)`: the small-prime table contribution
(when `start ≤ 5`) plus the engine contribution (when `stop ≥ 7`). -/
def postCounts (start stop flags : Nat) (i : Fin 7) : Nat :=
  (if start ≤ 5 then smallContribList smallPrimes_ start stop flags i else 0) +
  (if 7 ≤ stop then
    (if isCount flags i.val then engineTupletCount i.val start stop else 0)
   else 0)

/-- `doSmallPrime` never changes the configuration fields. -/
theorem doSmallPrime_fields (s : PS) (sp : SmallPrime) :
    (doSmallPrime s sp).1.start_ = s.start_ ∧
    (doSmallPrime s sp).1.stop_ = s.stop_ ∧
    (doSmallPrime s sp).1.flags_ = s.flags_ ∧
    (doSmallPrime s sp).1.preSieve_ = s.preSieve_ ∧
    (doSmallPrime s sp).1.sieveSize_ = s.sieveSize_ := by
  rw [doSmallPrime]
  split <;> simp

/-- The counter update of one `doSmallPrime` call. -/
theorem doSmallPrime_counts (s : PS) (sp : SmallPrime) (i : Fin 7) :
    (doSmallPrime s sp).1.counts_ i = s.counts_ i +
      (if s.start_ ≤ sp.min ∧ sp.max ≤ s.stop_ ∧ isCount s.flags_ sp.index ∧
          i.val = sp.index then 1 else 0) := by
  rw [doSmallPrime]
  split
  · rename_i h
    show (if isCount s.flags_ sp.index ∧ i.val = sp.index then s.counts_ i + 1
          else s.counts_ i) = _
    split_ifs with h1 h2 <;> simp_all
  · rename_i h
    rw [if_neg (by tauto)]
    simp

/-- The small-prime loop preserves the configuration fields and adds the
per-entry contributions to the counters. -/
theorem smallFold_spec (l : List SmallPrime) :
    ∀ acc : PS × List Event,
      (l.foldl smallStep acc).1.start_ = acc.1.start_ ∧
      (l.foldl smallStep acc).1.stop_ = acc.1.stop_ ∧
      (l.foldl smallStep acc).1.flags_ = acc.1.flags_ ∧
      (l.foldl smallStep acc).1.preSieve_ = acc.1.preSieve_ ∧
      (l.foldl smallStep acc).1.sieveSize_ = acc.1.sieveSize_ ∧
      ∀ i, (l.foldl smallStep acc).1.counts_ i =
        acc.1.counts_ i + smallContribList l acc.1.start_ acc.1.stop_ acc.1.flags_ i := by
  induction l with
  | nil =>
    intro acc
    simp [smallContribList]
  | cons sp l ih =>
    intro acc
    rw [List.foldl_cons]
    obtain ⟨ha, hb, hc, hd, he, hf⟩ := ih (smallStep acc sp)
    obtain ⟨da, db, dc, dd, de⟩ := doSmallPrime_fields acc.1 sp
    have hstep : (smallStep acc sp).1 = (doSmallPrime acc.1 sp).1 := rfl
    rw [hstep] at ha hb hc hd he hf
    refine ⟨ha.trans da, hb.trans db, hc.trans dc, hd.trans dd, he.trans de, fun i => ?_⟩
    rw [hf i, da, db, dc, doSmallPrime_counts]
    simp only [smallContribList, List.map_cons, List.sum_cons]
    omega

/-- `reset` preserves the configuration fields and zeroes the counters. -/
theorem reset_pres (s : PS) :
    (reset s).1.start_ = s.start_ ∧
    (reset s).1.stop_ = s.stop_ ∧
    (reset s).1.flags_ = s.flags_ ∧
    (reset s).1.preSieve_ = s.preSieve_ ∧
    (reset s).1.sieveSize_ = s.sieveSize_ ∧
    ∀ i, (reset s).1.counts_ i = 0 := by
  rw [reset]
  split <;> simp [updateStatus]

/-- `engineRun` preserves the configuration fields and adds the engine
contribution to the counters. -/
theorem engineRun_pres (s : PS) :
    (engineRun s).1.start_ = s.start_ ∧
    (engineRun s).1.stop_ = s.stop_ ∧
    (engineRun s).1.flags_ = s.flags_ ∧
    (engineRun s).1.preSieve_ = s.preSieve_ ∧
    (engineRun s).1.sieveSize_ = s.sieveSize_ ∧
    ∀ i, (engineRun s).1.counts_ i = s.counts_ i +
      (if isCount s.flags_ i.val then engineTupletCount i.val s.start_ s.stop_ else 0) := by
  refine ⟨rfl, rfl, rfl, rfl, rfl, fun i => rfl⟩

/-- `updateStatus` preserves the configuration fields and counters. -/
theorem updateStatus_pres (s : PS) (seg : Nat) :
    (updateStatus s seg).1.start_ = s.start_ ∧
    (updateStatus s seg).1.stop_ = s.stop_ ∧
    (updateStatus s seg).1.flags_ = s.flags_ ∧
    (updateStatus s seg).1.preSieve_ = s.preSieve_ ∧
    (updateStatus s seg).1.sieveSize_ = s.sieveSize_ ∧
    ∀ i, (updateStatus s seg).1.counts_ i = s.counts_ i :=
  ⟨rfl, rfl, rfl, rfl, rfl, fun _ => rfl⟩

/-- A `sieve()` body run: the configuration fields are unchanged and the
counters are exactly `postCounts` of the configuration. -/
theorem sieveCore_spec (s : PS) :
    (sieveCore s).1.start_ = s.start_ ∧
    (sieveCore s).1.stop_ = s.stop_ ∧
    (sieveCore s).1.flags_ = s.flags_ ∧
    (sieveCore s).1.preSieve_ = s.preSieve_ ∧
    (sieveCore s).1.sieveSize_ = s.sieveSize_ ∧
    ∀ i, (sieveCore s).1.counts_ i = postCounts s.start_ s.stop_ s.flags_ i := by
  obtain ⟨ra, rb, rc, rd, re, rf⟩ := reset_pres s
  rw [sieveCore]
  simp only [ra]
  by_cases h5 : s.start_ ≤ 5
  · rw [if_pos h5]
    obtain ⟨fa, fb, fc, fd, fe, ff⟩ := smallFold_spec smallPrimes_ (reset s)
    simp only [fb, rb]
    by_cases h7 : 7 ≤ s.stop_
    · rw [if_pos h7]
      obtain ⟨ea, eb, ec, ed, ee, ef⟩ :=
        engineRun_pres (List.foldl smallStep (reset s) smallPrimes_).1
      simp only [ec, fc, rc]
      by_cases hst : isStatus s.flags_ = true
      · rw [if_pos hst]
        obtain ⟨ua, ub, uc, ud, ue, uf⟩ :=
          updateStatus_pres (engineRun (List.foldl smallStep (reset s) smallPrimes_).1).1 10
        refine ⟨?_, ?_, ?_, ?_, ?_, fun i => ?_⟩ <;>
          simp only [ua, ub, uc, ud, ue, uf, ea, eb, ec, ed, ee, ef, fa, fb, fc, fd, fe,
            ff, ra, rb, rc, rd, re, rf, postCounts, if_pos h5, if_pos h7]
        all_goals omega
      · rw [if_neg hst]
        refine ⟨?_, ?_, ?_, ?_, ?_, fun i => ?_⟩ <;>
          simp only [ea, eb, ec, ed, ee, ef, fa, fb, fc, fd, fe,
            ff, ra, rb, rc, rd, re, rf, postCounts, if_pos h5, if_pos h7]
        all_goals omega
    · rw [if_neg h7]
      simp only [fc, rc]
      by_cases hst : isStatus s.flags_ = true
      · rw [if_pos hst]
        obtain ⟨ua, ub, uc, ud, ue, uf⟩ :=
          updateStatus_pres (List.foldl smallStep (reset s) smallPrimes_).1 10
        refine ⟨?_, ?_, ?_, ?_, ?_, fun i => ?_⟩ <;>
          simp only [ua, ub, uc, ud, ue, uf, fa, fb, fc, fd, fe,
            ff, ra, rb, rc, rd, re, rf, postCounts, if_pos h5, if_neg h7]
        all_goals omega
      · rw [if_neg hst]
        refine ⟨?_, ?_, ?_, ?_, ?_, fun i => ?_⟩ <;>
          simp only [fa, fb, fc, fd, fe,
            ff, ra, rb, rc, rd, re, rf, postCounts, if_pos h5, if_neg h7]
        all_goals omega
  · rw [if_neg h5]
    simp only [rb]
    by_cases h7 : 7 ≤ s.stop_
    · rw [if_pos h7]
      obtain ⟨ea, eb, ec, ed, ee, ef⟩ := engineRun_pres (reset s).1
      simp only [ec, rc]
      by_cases hst : isStatus s.flags_ = true
      · rw [if_pos hst]
        obtain ⟨ua, ub, uc, ud, ue, uf⟩ := updateStatus_pres (engineRun (reset s).1).1 10
        refine ⟨?_, ?_, ?_, ?_, ?_, fun i => ?_⟩ <;>
          simp only [ua, ub, uc, ud, ue, uf, ea, eb, ec, ed, ee, ef,
            ra, rb, rc, rd, re, rf, postCounts, if_neg h5, if_pos h7]
      · rw [if_neg hst]
        refine ⟨?_, ?_, ?_, ?_, ?_, fun i => ?_⟩ <;>
          simp only [ea, eb, ec, ed, ee, ef,
            ra, rb, rc, rd, re, rf, postCounts, if_neg h5, if_pos h7]
    · rw [if_neg h7]
      simp only [rc]
      by_cases hst : isStatus s.flags_ = true
      · rw [if_pos hst]
        obtain ⟨ua, ub, uc, ud, ue, uf⟩ := updateStatus_pres (reset s).1 10
        refine ⟨?_, ?_, ?_, ?_, ?_, fun i => ?_⟩ <;>
          simp only [ua, ub, uc, ud, ue, uf,
            ra, rb, rc, rd, re, rf, postCounts, if_neg h5, if_neg h7]
      · rw [if_neg hst]
        refine ⟨?_, ?_, ?_, ?_, ?_, fun i => ?_⟩ <;>
          simp only [ra, rb, rc, rd, re, rf, postCounts, if_neg h5, if_neg h7]

/-- Inversion of a successful `sieveRun`. -/
theorem sieveRun_ok_inv (s s' : PS) (ev : List Event)
    (h : sieveRun s = .ok (s', ev)) :
    ¬ s.stop_ < s.start_ ∧ s' = (sieveCore s).1 ∧ ev = (sieveCore s).2 := by
  rw [sieveRun] at h
  by_cases hlt : s.stop_ < s.start_
  · rw [if_pos hlt] at h
    exact absurd h (by simp)
  · rw [if_neg hlt] at h
    have h' := Except.ok.inj h
    exact ⟨hlt, by rw [h'], by rw [h']⟩

/-! ### Claim C6: sieve() is idempotent on the counters -/

/-- C6: running `sieve()` a second time with the configuration unchanged
reproduces the same seven counters: each run recomputes the counters from
zero out of `(start_, stop_, flags_)` alone, which a run never modifies. -/
theorem sieve_idempotent_counts (s s1 : PS) (ev1 : List Event)
    (h : sieveRun s = .ok (s1, ev1)) :
    ∃ s2 ev2, sieveRun s1 = .ok (s2, ev2) ∧ ∀ i, s2.counts_ i = s1.counts_ i := by
  obtain ⟨hlt, hs1, _⟩ := sieveRun_ok_inv s s1 ev1 h
  obtain ⟨ca, cb, cc, _, _, cf⟩ := sieveCore_spec s
  have hstart : s1.start_ = s.start_ := by rw [hs1]; exact ca
  have hstop : s1.stop_ = s.stop_ := by rw [hs1]; exact cb
  have hflags : s1.flags_ = s.flags_ := by rw [hs1]; exact cc
  have hnlt : ¬ s1.stop_ < s1.start_ := by rw [hstart, hstop]; exact hlt
  refine ⟨(sieveCore s1).1, (sieveCore s1).2, by rw [sieveRun, if_neg hnlt], fun i => ?_⟩
  obtain ⟨_, _, _, _, _, cf1⟩ := sieveCore_spec s1
  rw [cf1 i, hstart, hstop, hflags, hs1, cf i]

/-- C6, witness: two consecutive default-configuration runs agree on all
seven counters. -/
theorem sieve_idempotent_counts_witness :
    ∃ s1 ev1 s2 ev2, sieveRun psDefault = .ok (s1, ev1) ∧
      sieveRun s1 = .ok (s2, ev2) ∧ ∀ i, s2.counts_ i = s1.counts_ i := by
  obtain ⟨⟨s1, ev1⟩, h⟩ := sieveRun_total psDefault (by decide)
  obtain ⟨s2, ev2, h2, h3⟩ := sieve_idempotent_counts psDefault s1 ev1 h
  exact ⟨s1, ev1, s2, ev2, h, h2, h3⟩

/-! ### Claim C10: generatePrimes overwrites the configuration -/

/-- C10: every `generatePrimes` overload (with valid arguments: non-NULL
pointers, both bounds below the guard, `start ≤ stop`) overwrites the flag
bitset with exactly the single CALLBACK flag of the overload — discarding
every previously configured COUNT/PRINT flag — sets the pre-sieve
parameter to 17, and stores the call's `start` and `stop`; the returned
state is what a subsequent `sieve()` on the same object would use. -/
theorem generatePrimes_config (v : CbVariant) (cbN objN : Bool)
    (start stop : Nat) (s : PS)
    (hnull : nullCheckFails v cbN objN = false)
    (hstart : start < startStopBound) (hstop : stop < startStopBound)
    (hss : start ≤ stop) :
    ∃ s' ev, generatePrimes v cbN objN start stop s = .ok (s', ev) ∧
      s'.flags_ = callbackFlag v ∧ s'.preSieve_ = 17 ∧
      s'.start_ = start ∧ s'.stop_ = stop := by
  rw [generatePrimes, if_neg (by simp [hnull])]
  set t := setPreSieve { s with flags_ := callbackFlag v } 17 with ht
  have h1 : setStart t start = .ok { t with start_ := start } := by
    rw [setStart, if_neg (Nat.not_le.mpr hstart)]
  have h2 : setStop { t with start_ := start } stop =
      .ok { t with start_ := start, stop_ := stop } := by
    rw [setStop, if_neg (Nat.not_le.mpr hstop)]
  rw [sieveStartStop, h1]
  dsimp only
  rw [h2]
  dsimp only
  set u : PS := { t with start_ := start, stop_ := stop } with hu
  obtain ⟨⟨s', ev⟩, hr⟩ := sieveRun_total u hss
  obtain ⟨ca, cb, cc, cd, _, _⟩ := sieveCore_spec u
  obtain ⟨_, hseq, _⟩ := sieveRun_ok_inv u s' ev hr
  refine ⟨s', ev, hr, ?_, ?_, ?_, ?_⟩
  · rw [hseq, cc]; rfl
  · rw [hseq, cd]
    show (getInBetween 13 17 23) = 17
    decide
  · rw [hseq, ca]
  · rw [hseq, cb]

/-- C10, witness: the 64-bit value-only overload on `[0, 10]` from the
default configuration. -/
theorem generatePrimes_config_witness :
    ∃ s' ev, generatePrimes .cb64v false false 0 10 psDefault = .ok (s', ev) ∧
      s'.flags_ = callbackFlag .cb64v ∧ s'.preSieve_ = 17 ∧
      s'.start_ = 0 ∧ s'.stop_ = 10 :=
  generatePrimes_config .cb64v false false 0 10 psDefault rfl
    (by norm_num [startStopBound]) (by norm_num [startStopBound]) (by norm_num)

/-! ### Claim C1: get_prime_count = pi(stop) - pi(start - 1) -/

/-- The prime counting difference over `[a, b]` is the number of primes in
the inclusive interval (with `a - 1` taken in `Nat`, so `a = 0` behaves
like the empty left margin). -/
theorem pi_sub (a b : Nat) (hab : a ≤ b) :
    Nat.primeCounting b - Nat.primeCounting (a - 1) =
      ((Finset.Icc a b).filter Nat.Prime).card := by
  rw [Nat.primeCounting, Nat.primeCounting, Nat.primeCounting',
    Nat.count_eq_card_filter_range, Nat.count_eq_card_filter_range]
  have ha' : a - 1 + 1 ≤ b + 1 := by omega
  have hsplit : (Finset.range (b + 1)).filter Nat.Prime =
      (Finset.range (a - 1 + 1)).filter Nat.Prime ∪
      (Finset.Ico (a - 1 + 1) (b + 1)).filter Nat.Prime := by
    rw [← Finset.filter_union]
    congr 1
    rw [Finset.range_eq_Ico]
    exact (Finset.Ico_union_Ico_eq_Ico (Nat.zero_le _) ha').symm
  have hdisj : Disjoint ((Finset.range (a - 1 + 1)).filter Nat.Prime)
      ((Finset.Ico (a - 1 + 1) (b + 1)).filter Nat.Prime) := by
    apply Finset.disjoint_filter_filter
    rw [Finset.range_eq_Ico]
    exact Finset.Ico_disjoint_Ico_consecutive 0 _ _
  have hmid : (Finset.Ico (a - 1 + 1) (b + 1)).filter Nat.Prime =
      (Finset.Icc a b).filter Nat.Prime := by
    ext p
    simp only [Finset.mem_filter, Finset.mem_Ico, Finset.mem_Icc]
    constructor
    · rintro ⟨⟨hp1, hp2⟩, hp⟩
      exact ⟨⟨by omega, by omega⟩, hp⟩
    · rintro ⟨⟨hp1, hp2⟩, hp⟩
      have h2 := hp.two_le
      exact ⟨⟨by omega, by omega⟩, hp⟩
  rw [hsplit, Finset.card_union_of_disjoint hdisj, hmid]
  have he : (Finset.filter (fun x => Nat.Prime x) (Finset.range (a - 1 + 1))).card =
      (Finset.filter Nat.Prime (Finset.range (a - 1 + 1))).card := rfl
  omega

/-- Splitting the primes of `[a, b]` at 7. -/
theorem icc_prime_split (a b : Nat) :
    ((Finset.Icc a b).filter Nat.Prime).card =
      ((Finset.Icc a b).filter fun p => Nat.Prime p ∧ p < 7).card +
      ((Finset.Icc a b).filter fun p => Nat.Prime p ∧ 7 ≤ p).card := by
  have h := Finset.filter_card_add_filter_neg_card_eq_card
    (s := (Finset.Icc a b).filter Nat.Prime) (p := fun p => p < 7)
  rw [Finset.filter_filter, Finset.filter_filter] at h
  simp only [Nat.not_lt] at h
  omega

/-- The number of members of `{2, 3, 5}` inside `[a, b]`, as the sum of
three indicators. -/
theorem triple_card (a b : Nat) :
    (({2, 3, 5} : Finset Nat).filter fun p => a ≤ p ∧ p ≤ b).card =
      (if a ≤ 2 ∧ 2 ≤ b then 1 else 0) + (if a ≤ 3 ∧ 3 ≤ b then 1 else 0) +
      (if a ≤ 5 ∧ 5 ≤ b then 1 else 0) := by
  rw [Finset.filter_insert, Finset.filter_insert, Finset.filter_singleton]
  split_ifs <;> decide

/-- The primes below 7 in `[a, b]` are exactly the members of `{2, 3, 5}`
inside `[a, b]`. -/
theorem primes_lt7_card (a b : Nat) :
    ((Finset.Icc a b).filter fun p => Nat.Prime p ∧ p < 7).card =
      (if a ≤ 2 ∧ 2 ≤ b then 1 else 0) + (if a ≤ 3 ∧ 3 ≤ b then 1 else 0) +
      (if a ≤ 5 ∧ 5 ≤ b then 1 else 0) := by
  have hset : (Finset.Icc a b).filter (fun p => Nat.Prime p ∧ p < 7) =
      ({2, 3, 5} : Finset Nat).filter (fun p => a ≤ p ∧ p ≤ b) := by
    ext p
    simp only [Finset.mem_filter, Finset.mem_Icc, Finset.mem_insert,
      Finset.mem_singleton]
    constructor
    · rintro ⟨⟨h1, h2⟩, hp, h7⟩
      refine ⟨?_, h1, h2⟩
      interval_cases p <;> norm_num at hp ⊢
    · rintro ⟨hp, h1, h2⟩
      rcases hp with rfl | rfl | rfl <;> exact ⟨⟨h1, h2⟩, by norm_num⟩
  rw [hset, triple_card]

/-- No primes `≥ 7` fit in `[a, b]` when `b < 7`. -/
theorem primes_ge7_empty (a b : Nat) (h : b < 7) :
    ((Finset.Icc a b).filter fun p => Nat.Prime p ∧ 7 ≤ p).card = 0 := by
  rw [Finset.card_eq_zero, Finset.filter_eq_empty_iff]
  intro p hp
  simp only [Finset.mem_Icc] at hp
  rintro ⟨_, h7⟩
  omega

/-- The engine's prime count (tuplet index 0) is the number of primes
`≥ 7` in `[start, stop]`. -/
theorem engineTupletCount_zero (start stop : Nat) :
    engineTupletCount 0 start stop =
      ((Finset.Icc start stop).filter fun p => Nat.Prime p ∧ 7 ≤ p).card := by
  rw [engineTupletCount]
  congr 1
  apply Finset.filter_congr
  intro p hp
  simp only [Finset.mem_Icc] at hp
  constructor
  · rintro ⟨h7, _, hall⟩
    have hpr := hall 0 (by simp [tupletOffsets])
    exact ⟨by simpa using hpr, h7⟩
  · rintro ⟨hpr, h7⟩
    refine ⟨h7, ?_, ?_⟩
    · have hlast : (tupletOffsets 0).getLast! = 0 := rfl
      rw [hlast]
      omega
    · intro o ho
      have ho0 : o = 0 := by simpa [tupletOffsets] using ho
      subst ho0
      simpa using hpr

/-- The small-prime table's contribution to the prime counter, when
COUNT_PRIMES is enabled. -/
theorem smallContribList_zero (start stop flags : Nat)
    (hc : isCount flags 0 = true) :
    smallContribList smallPrimes_ start stop flags 0 =
      (if start ≤ 2 ∧ 2 ≤ stop then 1 else 0) +
      (if start ≤ 3 ∧ 3 ≤ stop then 1 else 0) +
      (if start ≤ 5 ∧ 5 ≤ stop then 1 else 0) := by
  simp only [smallContribList, smallPrimes_, List.map_cons, List.map_nil,
    List.sum_cons, List.sum_nil, hc]
  norm_num
  ring

/-- C1: for every valid configuration with `start ≤ stop` below the safe
ceiling and COUNT_PRIMES enabled, `sieve()` leaves `getPrimeCount()` equal
to `π(stop) − π(start − 1)`, the number of primes in `[start, stop]`
(subtraction in `Nat`, so `start = 0` contributes no left margin);
moreover the hardcoded small-prime table contributes the primes
`p ∈ {2, 3, 5}` to the counter exactly when `start ≤ p ≤ stop`. -/
theorem sieve_prime_count (s : PS) (h1 : s.start_ ≤ s.stop_)
    (h2 : s.stop_ < startStopBound)
    (hc : isFlag s.flags_ COUNT_PRIMES = true)
    (s' : PS) (ev : List Event) (hr : sieveRun s = .ok (s', ev)) :
    s'.counts_ 0 = Nat.primeCounting s.stop_ - Nat.primeCounting (s.start_ - 1) ∧
    smallContribList smallPrimes_ s.start_ s.stop_ s.flags_ 0 =
      (({2, 3, 5} : Finset Nat).filter fun p => s.start_ ≤ p ∧ p ≤ s.stop_).card := by
  have hc0 : isCount s.flags_ 0 = true := hc
  refine ⟨?_, by rw [smallContribList_zero _ _ _ hc0, triple_card]⟩
  obtain ⟨hlt, hs', _⟩ := sieveRun_ok_inv s s' ev hr
  obtain ⟨_, _, _, _, _, cf⟩ := sieveCore_spec s
  rw [hs', cf 0, pi_sub s.start_ s.stop_ h1, icc_prime_split, primes_lt7_card]
  simp only [postCounts, Fin.val_zero]
  rw [smallContribList_zero _ _ _ hc0, if_pos hc0, engineTupletCount_zero]
  by_cases h5 : s.start_ ≤ 5
  · rw [if_pos h5]
    by_cases h7 : 7 ≤ s.stop_
    · rw [if_pos h7]
    · rw [if_neg h7, primes_ge7_empty _ _ (by omega)]
  · rw [if_neg h5, if_neg (by omega : ¬(s.start_ ≤ 2 ∧ 2 ≤ s.stop_)),
      if_neg (by omega : ¬(s.start_ ≤ 3 ∧ 3 ≤ s.stop_)),
      if_neg (by omega : ¬(s.start_ ≤ 5 ∧ 5 ≤ s.stop_))]
    by_cases h7 : 7 ≤ s.stop_
    · rw [if_pos h7]
    · rw [if_neg h7, primes_ge7_empty _ _ (by omega)]

example : postCounts 0 0 COUNT_PRIMES 0 = 0 := by decide
example : postCounts 2 2 COUNT_PRIMES 0 = 1 := by decide
example : postCounts 1 1 COUNT_PRIMES 0 = 0 := by decide
example : postCounts 1 30 COUNT_PRIMES 0 = 10 := by decide

/-- C1, witness: the configuration `[0, 30]` with COUNT_PRIMES. -/
theorem sieve_prime_count_witness :
    ∃ s' ev, sieveRun { psDefault with stop_ := 30 } = .ok (s', ev) ∧
      s'.counts_ 0 =
        Nat.primeCounting 30 - Nat.primeCounting (0 - 1) ∧
      smallContribList smallPrimes_ 0 30 COUNT_PRIMES 0 =
        (({2, 3, 5} : Finset Nat).filter fun p => 0 ≤ p ∧ p ≤ 30).card := by
  obtain ⟨⟨s', ev⟩, hr⟩ := sieveRun_total { psDefault with stop_ := 30 } (by decide)
  obtain ⟨ha, hb⟩ := sieve_prime_count { psDefault with stop_ := 30 } (by decide)
    (by norm_num [psDefault, startStopBound]) (by decide) s' ev hr
  exact ⟨s', ev, hr, ha, hb⟩

/-! ### Claim C9: isqrt computes the integer square root -/

/-- Invariant of one `ilog2` loop trip: a state `(y, l)` with
`1 ≤ y < 2^(2i)` and `y = orig >> l` becomes a state with the residue
below `2^i` and the shift relation maintained. -/
theorem ilog2Body_inv (i orig : Nat) (st : Nat × Nat)
    (h1 : 1 ≤ st.1) (h2 : st.1 < 2 ^ (2 * i)) (h3 : st.1 = orig / 2 ^ st.2) :
    1 ≤ (ilog2Body i st).1 ∧ (ilog2Body i st).1 < 2 ^ i ∧
      (ilog2Body i st).1 = orig / 2 ^ (ilog2Body i st).2 := by
  have hpos : 0 < 2 ^ i := Nat.pos_pow_of_pos i (by norm_num)
  rw [ilog2Body]
  split
  · rename_i hge
    refine ⟨(Nat.one_le_div_iff hpos).mpr hge, ?_, ?_⟩
    · rw [Nat.div_lt_iff_lt_mul hpos]
      have hpow : (2 : Nat) ^ (2 * i) = 2 ^ i * 2 ^ i := by
        rw [two_mul, pow_add]
      omega
    · show st.1 / 2 ^ i = orig / 2 ^ (st.2 + i)
      rw [h3, Nat.div_div_eq_div_mul, ← pow_add]
  · rename_i hlt
    exact ⟨h1, by omega, h3⟩

/-- The 64-bit `ilog2` brackets its argument between consecutive powers of
two. -/
theorem ilog2_spec (x : Nat) (h1 : 1 ≤ x) (hx : x < 2 ^ 64) :
    2 ^ ilog2 x ≤ x ∧ x < 2 ^ (ilog2 x + 1) := by
  obtain ⟨a1, b1, c1⟩ := ilog2Body_inv 32 x (x, 0) h1 (by norm_num; omega) (by norm_num)
  obtain ⟨a2, b2, c2⟩ := ilog2Body_inv 16 x (ilog2Body 32 (x, 0)) a1 b1 c1
  obtain ⟨a3, b3, c3⟩ := ilog2Body_inv 8 x _ a2 b2 c2
  obtain ⟨a4, b4, c4⟩ := ilog2Body_inv 4 x _ a3 b3 c3
  obtain ⟨a5, b5, c5⟩ := ilog2Body_inv 2 x _ a4 b4 c4
  obtain ⟨a6, b6, c6⟩ := ilog2Body_inv 1 x _ a5 b5 c5
  set st6 := ilog2Body 1 (ilog2Body 2 (ilog2Body 4 (ilog2Body 8
    (ilog2Body 16 (ilog2Body 32 (x, 0)))))) with hst6
  have hil : ilog2 x = st6.2 := rfl
  have hone : st6.1 = 1 := by
    have : (2 : Nat) ^ 1 = 2 := by norm_num
    omega
  have hpos : 0 < 2 ^ st6.2 := Nat.pos_pow_of_pos _ (by norm_num)
  constructor
  · rw [hil]
    exact (Nat.one_le_div_iff hpos).mp (by omega)
  · rw [hil]
    have hdl : x / 2 ^ st6.2 < 2 := by omega
    rw [Nat.div_lt_iff_lt_mul hpos] at hdl
    have hpow : (2 : Nat) ^ (st6.2 + 1) = 2 * 2 ^ st6.2 := by
      rw [pow_succ]; ring
    omega

/-- Arithmetic-geometric mean inequality in natural-number division:
`2 s ≤ g + s² / g` for `g ≥ 1`. -/
theorem am_gm_div (g s : Nat) (hg : 1 ≤ g) : 2 * s ≤ g + s * s / g := by
  have h1 : s * s / g * g ≤ s * s := Nat.div_mul_le_self _ _
  have h2 : s * s < s * s / g * g + g := Nat.lt_div_mul_add (by omega)
  zify at h1 h2 hg ⊢
  nlinarith [sq_nonneg ((g : Int) - (s : Int))]

/-- Every Newton step from a positive guess stays `≥ √x`. -/
theorem newton_step_ge (x g : Nat) (hg : 1 ≤ g) :
    Nat.sqrt x ≤ (g + x / g) / 2 := by
  have h1 : Nat.sqrt x * Nat.sqrt x ≤ x := Nat.sqrt_le x
  have h2 : Nat.sqrt x * Nat.sqrt x / g ≤ x / g :=
    Nat.div_le_div_right h1
  have h3 := am_gm_div g (Nat.sqrt x) hg
  rw [Nat.le_div_iff_mul_le (by norm_num : 0 < 2)]
  omega

/-- A guess strictly above `√x` strictly decreases under a Newton step. -/
theorem newton_step_lt (x g : Nat) (hg : Nat.sqrt x < g) :
    (g + x / g) / 2 < g := by
  have hgpos : 0 < g := by omega
  have hxlt : x < g * g := Nat.sqrt_lt.mp hg
  have hdiv : x / g < g := by
    rw [Nat.div_lt_iff_lt_mul hgpos]
    omega
  rw [Nat.div_lt_iff_lt_mul (by norm_num : 0 < 2)]
  omega

/-- The Newton loop of `isqrt` returns exactly `Nat.sqrt x` whenever the
entry guess `g0` is `≥ √x ≥ 1`, its companion `g1` is the Newton step of
`g0`, and the fuel is at least `g0`. -/
theorem newtonLoop_eq (x : Nat) (h2x : 2 ≤ x) :
    ∀ fuel g0 g1, g0 ≤ fuel → Nat.sqrt x ≤ g0 → g1 = (g0 + x / g0) / 2 →
      newtonLoop x fuel g0 g1 = Nat.sqrt x := by
  have hs1 : 1 ≤ Nat.sqrt x := Nat.le_sqrt.mpr (by omega)
  intro fuel
  induction fuel with
  | zero =>
    intro g0 g1 hf hge _
    omega
  | succ fuel ih =>
    intro g0 g1 hf hge hg1
    rw [newtonLoop]
    by_cases hlt : g1 < g0
    · rw [if_pos hlt]
      exact ih g1 _ (by omega) (hg1 ▸ newton_step_ge x g0 (by omega)) rfl
    · rw [if_neg hlt]
      by_cases hgt : Nat.sqrt x < g0
      · exact absurd (hg1 ▸ newton_step_lt x g0 hgt) hlt
      · omega

/-- The first guess `2 ^ (1 + ilog2 (x - 1) / 2)` dominates `√x`. -/
theorem isqrt_first_guess (x : Nat) (h2x : 2 ≤ x) (hx : x < 2 ^ 64) :
    Nat.sqrt x ≤ 2 ^ (1 + ilog2 (x - 1) / 2) := by
  obtain ⟨_, hub⟩ := ilog2_spec (x - 1) (by omega) (by omega)
  set k := ilog2 (x - 1) with hk
  have hxle : x ≤ 2 ^ (k + 1) := by omega
  have hexp : k + 1 ≤ (1 + k / 2) + (1 + k / 2) := by omega
  have hsq : x ≤ 2 ^ (1 + k / 2) * 2 ^ (1 + k / 2) := by
    calc x ≤ 2 ^ (k + 1) := hxle
      _ ≤ 2 ^ ((1 + k / 2) + (1 + k / 2)) :=
        Nat.pow_le_pow_right (by norm_num) hexp
      _ = 2 ^ (1 + k / 2) * 2 ^ (1 + k / 2) := pow_add 2 _ _
  calc Nat.sqrt x ≤ Nat.sqrt (2 ^ (1 + k / 2) * 2 ^ (1 + k / 2)) :=
        Nat.sqrt_le_sqrt hsq
    _ = 2 ^ (1 + k / 2) := Nat.sqrt_eq _

/-- C9: for every `x` representable in the instantiated 64-bit width,
`isqrt(x)` terminates (its loop fuel `g0` is proved sufficient) and
returns `⌊√x⌋`: the unique `r` with `r² ≤ x < (r + 1)²`; this includes
`x = 0`, `x = 1` and the maximum representable value. -/
theorem isqrt_correct (x : Nat) (hx : x < 2 ^ 64) :
    isqrt x = Nat.sqrt x ∧
    isqrt x * isqrt x ≤ x ∧ x < (isqrt x + 1) * (isqrt x + 1) := by
  have heq : isqrt x = Nat.sqrt x := by
    by_cases hx1 : x ≤ 1
    · rw [isqrt, if_pos hx1]
      interval_cases x <;> simp
    · rw [isqrt, if_neg hx1]
      exact newtonLoop_eq x (by omega) _ _ _ (le_refl _)
        (isqrt_first_guess x (by omega) hx) rfl
  refine ⟨heq, ?_, ?_⟩
  · rw [heq]; exact Nat.sqrt_le x
  · rw [heq]; exact Nat.lt_succ_sqrt x

/-- C9, witness at the maximum representable value `2^64 - 1` (the
hypothesis `x < 2^64` is discharged there). -/
theorem isqrt_correct_witness :
    isqrt (2 ^ 64 - 1) = Nat.sqrt (2 ^ 64 - 1) ∧
    isqrt (2 ^ 64 - 1) * isqrt (2 ^ 64 - 1) ≤ 2 ^ 64 - 1 ∧
    2 ^ 64 - 1 < (isqrt (2 ^ 64 - 1) + 1) * (isqrt (2 ^ 64 - 1) + 1) :=
  isqrt_correct (2 ^ 64 - 1) (by norm_num)

end Primesieve
